import Mathlib

/-!
Shallow embedding of the `tiliter-video` playback utilities (`run.py` and
`gui.py`) and proofs about their frame-source seeking, transform chain,
playback loop and output-sink behaviour.

Frames are modelled as rows of pixels, each pixel a list of channel
samples (natural numbers standing for the 8-bit values).  The OpenCV
capture, writer, background subtractor and colour conversions are
external-library calls in the source; they are modelled here from their
documented behaviour and from the spec, each marked in its doc comment.
-/

/-- A pixel: the list of its channel samples (BGR order, as OpenCV reads). -/
abbrev Pixel := List Nat

/-- A frame: a list of rows, each row a list of pixels. -/
abbrev Frame := List (List Pixel)

/-- Height of a frame (number of rows). -/
def fheight (f : Frame) : Nat := f.length

/-- Width of a frame (length of its first row; 0 for an empty frame). -/
def fwidth (f : Frame) : Nat := (f.getD 0 []).length

/-- Channel count of a frame (length of its first pixel; 0 if empty). -/
def fchannels (f : Frame) : Nat := ((f.getD 0 []).getD 0 []).length

/-- Well-formedness: frame `f` is an `h × w` grid of `c`-channel pixels. -/
def FrameWF (f : Frame) (h w c : Nat) : Prop :=
  f.length = h ∧ ∀ row ∈ f, row.length = w ∧ ∀ px ∈ row, px.length = c

instance (f : Frame) (h w c : Nat) : Decidable (FrameWF f h w c) := by
  unfold FrameWF
  infer_instance

/-!
## FrameSource: the `cv2.VideoCapture` model

In both `run.py` and `gui.py` the frame source is a `cv2.VideoCapture`.
Its position counter `CAP_PROP_POS_FRAMES` is the index of the next frame
to be decoded; `read()` returns `(True, frame)` and advances it, or
`(False, None)` at end of stream.
-/

/-- Modelled from the spec: a `cv2.VideoCapture` over a decoded stream.
`opened` is `isOpened()`, `frames` the decodable stream, and `pos` the
`CAP_PROP_POS_FRAMES` counter (index of the next frame to read), kept as
an integer so that clamping of negative seek targets is a real property
rather than a typing accident. -/
structure Capture where
  opened : Bool
  frames : List Frame
  pos : Int
  deriving Repr, DecidableEq

/-- Model of `cap.get(cv2.CAP_PROP_POS_FRAMES)`. -/
def capGet (c : Capture) : Int := c.pos

/-- Modelled from the spec: `cap.set(cv2.CAP_PROP_POS_FRAMES, t)`.  The
library clamps the requested position to the stream bounds; in the
spec's words, "Seeking back past frame 0 clamps to frame 0 rather than
producing a negative position". -/
def capSet (c : Capture) (t : Int) : Capture :=
  { c with pos :=
      if t < 0 then 0
      else if (c.frames.length : Int) < t then (c.frames.length : Int)
      else t }

/-- Model of `cap.read()`: `(True, frame)` and advance when a frame is available,
`(False, None)` otherwise. -/
def capRead (c : Capture) : Capture × Option Frame :=
  if c.opened ∧ 0 ≤ c.pos ∧ c.pos < (c.frames.length : Int) then
    ({ c with pos := c.pos + 1 }, c.frames.get? c.pos.toNat)
  else (c, none)

/-- The `set_frame_back` function from `run.py` (identical to
`VideoProcessor.set_frame_back` in `gui.py`):
`current_frame = cap.get(CAP_PROP_POS_FRAMES) - 1` then
`cap.set(CAP_PROP_POS_FRAMES, current_frame - num_frames)`. -/
def set_frame_back (c : Capture) (num_frames : Nat) : Capture :=
  let current_frame := capGet c - 1
  capSet c (current_frame - num_frames)

/-- One step-back invocation as the controller performs it: seek one
frame back, then immediately read again to re-display a frame. -/
def stepBackOnce (c : Capture) : Capture × Option Frame :=
  capRead (set_frame_back c 1)

/-- Iterated step-back: `k` step-back invocations in a row, collecting the re-displayed
frames in order. -/
def stepBackIter : Nat → Capture → Capture × List (Option Frame)
  | 0, c => (c, [])
  | k + 1, c =>
    let r := stepBackOnce c
    let rest := stepBackIter k r.1
    (rest.1, r.2 :: rest.2)

/-- Iterated play: `m` normal play ticks, reading `m` frames in a row, collecting the
displayed frames in order. -/
def playIter : Nat → Capture → Capture × List (Option Frame)
  | 0, c => (c, [])
  | m + 1, c =>
    let r := capRead c
    let rest := playIter m r.1
    (rest.1, r.2 :: rest.2)

/-!
## FrameTransformChain

`run.py` transforms frames inline in `show_frame`; `gui.py` composes the
callables `monochrome_fn` and `SegmentationFunctor` into a processor
list.  Colour conversion and background subtraction are `cv2` calls,
modelled below from their documented behaviour.
-/

/-- Modelled from the spec: `cv2.cvtColor(image, cv2.COLOR_BGR2GRAY)` per
pixel.  OpenCV computes `0.299 R + 0.587 G + 0.114 B` in fixed point:
the coefficients are scaled by `2^14` (4899, 9617, 1868, summing to
16384) and the result rounded.  Pixels are in BGR channel order. -/
def grayVal (px : Pixel) : Nat :=
  (4899 * px.getD 2 0 + 9617 * px.getD 1 0 + 1868 * px.getD 0 0 + 8192) / 16384

/-- The grayscale branch of `show_frame` in `run.py`:
`frame = cv2.cvtColor(frame, cv2.COLOR_BGR2GRAY)` — the result is a
single-channel frame, used as-is downstream. -/
def runMonochrome (f : Frame) : Frame :=
  f.map (fun row => row.map (fun px => [grayVal px]))

/-- The `monochrome_fn` function from `gui.py`: grayscale conversion followed by
`np.stack((image,) * 3, axis=-1)`, re-expanding to three channels. -/
def monochrome_fn (f : Frame) : Frame :=
  f.map (fun row => row.map (fun px => [grayVal px, grayVal px, grayVal px]))

/-- The `rgb_fn` lambda from `gui.py`: `cv2.cvtColor(image, cv2.COLOR_BGR2RGB)`,
modelled as reversing the BGR channel order of each pixel. -/
def rgb_fn (f : Frame) : Frame :=
  f.map (fun row => row.map (fun px => px.reverse))

/-- A foreground mask: one value per pixel, 0 for background. -/
abbrev Mask := List (List Nat)

/-- The mutable state of a `cv2.BackgroundSubtractorMOG2`. -/
abbrev SubState := Option Frame

/-- Modelled from the spec: `cv2.BackgroundSubtractorMOG2.apply`, the
"motion-based foreground segmentation" step.  The subtractor maintains a
learned background model which every `apply` call updates with the frame
it is given; the returned mask marks the pixels that differ from the
learned background (everything is foreground while no model exists). -/
def subApply (img : Frame) (s : SubState) : Mask × SubState :=
  match s with
  | none => (img.map (fun row => row.map (fun _ => 255)), some img)
  | some bg =>
    (List.zipWith
      (fun rowI rowB => List.zipWith (fun px bpx => if px = bpx then 0 else 255) rowI rowB)
      img bg,
     some img)

/-- Modelled from the spec: `cv2.bitwise_and(frame, frame, mask=m)` —
keep a pixel (its conjunction with itself) where the mask is non-zero,
zero out all its channels elsewhere. -/
def maskAnd (f : Frame) (m : Mask) : Frame :=
  List.zipWith
    (fun row mrow =>
      List.zipWith (fun px mv => if mv = 0 then px.map (fun _ => 0) else px) row mrow)
    f m

/-- The transform kinds appearing in the processor chain of `gui.py`. -/
inductive Proc where
  | mono
  | segment
  deriving Repr, DecidableEq

/-- One processor applied to a frame, threading the subtractor state:
`monochrome_fn`, or `SegmentationFunctor.__call__` (which computes the
foreground mask and masks the frame with it). -/
def applyProc : Proc → Frame → SubState → Frame × SubState
  | .mono, f, s => (monochrome_fn f, s)
  | .segment, f, s =>
    let r := subApply f s
    (maskAnd f r.1, r.2)

/-- The processor loop of `VideoProcessor.get_frame`:
`for fn in self.processors: frame = fn(frame)`. -/
def applyChain : List Proc → Frame → SubState → Frame × SubState
  | [], f, s => (f, s)
  | p :: ps, f, s =>
    let r := applyProc p f s
    applyChain ps r.1 r.2

/-- The transform portion of `show_frame` in `run.py`: grayscale when
`--monochrome`, then background subtraction and masking when
`--segment`. -/
def runTransform (monochrome seg : Bool) (f : Frame) (s : SubState) :
    Frame × SubState :=
  let f1 := if monochrome then runMonochrome f else f
  if seg then
    let r := subApply f1 s
    (maskAnd f1 r.1, r.2)
  else (f1, s)

/-!
## PlaybackController: the `run.py` main loop

`main()` in `run.py` loops `while cap.isOpened()`: show a frame (exiting
the process at end of stream), write it to the output file, poll one key,
quit on `q`, and on `p` enter an inner pause loop that steps back on `b`
(re-displaying without writing) and resumes on the next `p`.  The
`cap.release() / out.release() / cv2.destroyAllWindows()` lines sit after
the loop, so they run only when the `while` guard fails; `sys.exit`
bypasses them.
-/

/-- One polled input: the bound keys of `run.py`, or anything else
(including the 255 returned when the 100 ms poll times out). -/
inductive Key where
  | q
  | p
  | b
  | other
  deriving Repr, DecidableEq

/-- The controller mode: inside the outer (playing) loop or inside the
inner pause loop. -/
inductive Mode where
  | playing
  | paused
  deriving Repr, DecidableEq

/-- How a run of the loop ends: `exited code` for `sys.exit(code)`,
`loopEnded` for falling out of the `while` guard into the release lines,
`inputsExhausted` when the modelled input script runs dry. -/
inductive Outcome where
  | exited (code : Nat)
  | loopEnded
  | inputsExhausted
  deriving Repr, DecidableEq

/-- The mutable state of `run.py`'s `main`: the capture, the background
subtractor, the frames written to `out`, the frames passed to
`cv2.imshow`, and whether the release lines after the loop have run. -/
structure RunState where
  cap : Capture
  sub : SubState
  sink : List Frame
  displayed : List Frame
  released : Bool
  deriving Repr, DecidableEq

/-- The head of a `playing` iteration of `run.py`'s loop: the
`while cap.isOpened()` guard, then `show_frame` (which `sys.exit(0)`s at
end of stream, else transforms and displays) and `out.write(frame)`.
`Sum.inl` carries the updated state into the key poll; `Sum.inr` is a
finished run (end of stream, or guard failure falling through to the
release lines). -/
def playTick (mono seg : Bool) (s : RunState) : RunState ⊕ (RunState × Outcome) :=
  if s.cap.opened then
    match capRead s.cap with
    | (c', none) => Sum.inr ({ s with cap := c' }, Outcome.exited 0)
    | (c', some raw) =>
      let r := runTransform mono seg raw s.sub
      Sum.inl { s with
        cap := c'
        sub := r.2
        displayed := s.displayed ++ [r.1]
        sink := s.sink ++ [r.1] }
  else Sum.inr ({ s with released := true }, Outcome.loopEnded)

/-- The `b` branch of the pause loop: `set_frame_back(cap)` then
`show_frame` — re-display without writing; `Sum.inr` is the
`sys.exit(0)` inside `show_frame` at end of stream. -/
def pauseStep (mono seg : Bool) (s : RunState) : RunState ⊕ (RunState × Outcome) :=
  match capRead (set_frame_back s.cap 1) with
  | (c', none) => Sum.inr ({ s with cap := c' }, Outcome.exited 0)
  | (c', some raw) =>
    let r := runTransform mono seg raw s.sub
    Sum.inl { s with cap := c', sub := r.2, displayed := s.displayed ++ [r.1] }

/-- The `while cap.isOpened()` loop of `run.py`'s `main`, driven by the
script of polled keys.  In `playing` mode an iteration runs `playTick`
then polls one key: `q` quits via `sys.exit(0)`, `p` enters the pause
loop; in `paused` mode it only polls, stepping back and re-displaying on
`b` without writing, resuming on `p`, quitting on `q`. -/
def runMain (mono seg : Bool) : Mode → List Key → RunState → RunState × Outcome
  | .playing, [], s =>
    match playTick mono seg s with
    | Sum.inr r => r
    | Sum.inl s' => (s', Outcome.inputsExhausted)
  | .playing, Key.q :: _, s =>
    match playTick mono seg s with
    | Sum.inr r => r
    | Sum.inl s' => (s', Outcome.exited 0)
  | .playing, Key.p :: ks', s =>
    match playTick mono seg s with
    | Sum.inr r => r
    | Sum.inl s' => runMain mono seg .paused ks' s'
  | .playing, Key.b :: ks', s =>
    match playTick mono seg s with
    | Sum.inr r => r
    | Sum.inl s' => runMain mono seg .playing ks' s'
  | .playing, Key.other :: ks', s =>
    match playTick mono seg s with
    | Sum.inr r => r
    | Sum.inl s' => runMain mono seg .playing ks' s'
  | .paused, [], s => (s, Outcome.inputsExhausted)
  | .paused, Key.q :: _, s => (s, Outcome.exited 0)
  | .paused, Key.b :: ks', s =>
    match pauseStep mono seg s with
    | Sum.inr r => r
    | Sum.inl s' => runMain mono seg .paused ks' s'
  | .paused, Key.p :: ks', s => runMain mono seg .playing ks' s
  | .paused, Key.other :: ks', s => runMain mono seg .paused ks' s

/-- The fetch made by a `playing` tick, described on the capture and
subtractor state alone (no sink): `none` when nothing is fetched (guard
failure or end of stream), else the advanced capture, the updated
subtractor state, and the transformed frame that was fetched. -/
def playFetch (mono seg : Bool) (c : Capture) (sub : SubState) :
    Option (Capture × SubState × Frame) :=
  if c.opened then
    match capRead c with
    | (_, none) => none
    | (c', some raw) =>
      let r := runTransform mono seg raw sub
      some (c', r.2, r.1)
  else none

/-- The fetch made by the pause loop's `b` branch, on the capture and
subtractor state alone. -/
def pauseFetch (mono seg : Bool) (c : Capture) (sub : SubState) :
    Option (Capture × SubState × Frame) :=
  match capRead (set_frame_back c 1) with
  | (_, none) => none
  | (c', some raw) =>
    let r := runTransform mono seg raw sub
    some (c', r.2, r.1)

/-- The frames fetched while in `Playing` mode, computed independently of
the sink: the specification-side description of what the output file
should receive. -/
def playedFrames (mono seg : Bool) : Mode → List Key → Capture → SubState → List Frame
  | .playing, [], c, sub =>
    match playFetch mono seg c sub with
    | none => []
    | some (_, _, f) => [f]
  | .playing, Key.q :: _, c, sub =>
    match playFetch mono seg c sub with
    | none => []
    | some (_, _, f) => [f]
  | .playing, Key.p :: ks', c, sub =>
    match playFetch mono seg c sub with
    | none => []
    | some (c', sub', f) => f :: playedFrames mono seg .paused ks' c' sub'
  | .playing, Key.b :: ks', c, sub =>
    match playFetch mono seg c sub with
    | none => []
    | some (c', sub', f) => f :: playedFrames mono seg .playing ks' c' sub'
  | .playing, Key.other :: ks', c, sub =>
    match playFetch mono seg c sub with
    | none => []
    | some (c', sub', f) => f :: playedFrames mono seg .playing ks' c' sub'
  | .paused, [], _, _ => []
  | .paused, Key.q :: _, _, _ => []
  | .paused, Key.b :: ks', c, sub =>
    match pauseFetch mono seg c sub with
    | none => []
    | some (c', sub', _) => playedFrames mono seg .paused ks' c' sub'
  | .paused, Key.p :: ks', c, sub => playedFrames mono seg .playing ks' c sub
  | .paused, Key.other :: ks', c, sub => playedFrames mono seg .paused ks' c sub

/-- The output-path computation of `run.py`'s `main`: the given
`--target-file-path` when present, else the sibling file
`<stem>_processed.mp4` in the resolved parent of the input path. -/
def targetPath (targetFilePath : Option String) (videoParent videoStem : String) : String :=
  match targetFilePath with
  | some t => t
  | none => videoParent ++ "/" ++ videoStem ++ "_processed.mp4"

/-!
## The `gui.py` variant: `VideoProcessor` and `App`
-/

/-- The `VideoProcessor` class from `gui.py`: the capture, the configured processor
chain with the subtractor state its segmentation functor closes over,
and the frames handed to the always-open `cv2.VideoWriter` (`out`).
`App.update` writes whatever `show_frame` returned, so the written
entries are `Option Frame`. -/
structure VideoProcessor where
  vid : Capture
  processors : List Proc
  sub : SubState
  out : List (Option Frame)
  deriving Repr, DecidableEq

/-- Model of `VideoProcessor.__init__`: opens the capture and raises
`ValueError("Unable to open video source", ...)` when it is not opened;
otherwise configures the processors and opens the output writer. -/
def VideoProcessor.init (videoOk : Bool) (frames : List Frame)
    (processors : List Proc) : Except String VideoProcessor :=
  let vid : Capture := { opened := videoOk, frames := frames, pos := 0 }
  if vid.opened then
    Except.ok { vid := vid, processors := processors, sub := none, out := [] }
  else
    Except.error "Unable to open video source"

/-- Model of `VideoProcessor.get_frame`: if the capture is opened and the read
succeeds, apply the chained processing steps and return `(True, frame)`;
in every other case return `(False, None)`. -/
def VideoProcessor.get_frame (v : VideoProcessor) : Option Frame × VideoProcessor :=
  if v.vid.opened then
    match capRead v.vid with
    | (c', some raw) =>
      let r := applyChain v.processors raw v.sub
      (some r.1, { v with vid := c', sub := r.2 })
    | (c', none) => (none, { v with vid := c' })
  else (none, v)

/-- The `App` state from `gui.py`: the video processor, the pause flag,
whether the window is still alive (`window.destroy()` not yet called),
and the frames drawn on the canvas. -/
structure App where
  vp : VideoProcessor
  paused : Bool
  windowAlive : Bool
  canvas : List Frame
  deriving Repr, DecidableEq

/-- Model of `App.show_frame`: fetch via `get_frame`; on success draw the
RGB-converted frame on the canvas and return it, otherwise destroy the
window and return `None`. -/
def App.show_frame (a : App) : Option Frame × App :=
  let r := a.vp.get_frame
  match r.1 with
  | some f => (some f, { a with vp := r.2, canvas := a.canvas ++ [rgb_fn f] })
  | none => (none, { a with vp := r.2, windowAlive := false })

/-- Model of `App.step_back`: only while paused, step the source back one frame
and re-display via `show_frame`; the output writer is not touched. -/
def App.step_back (a : App) : App :=
  if a.paused then
    ((App.show_frame { a with vp := { a.vp with vid := set_frame_back a.vp.vid 1 } }).2)
  else a

/-- One timer tick of `App.update`: show a frame and write what
`show_frame` returned to the output writer. -/
def App.update (a : App) : App :=
  let r := App.show_frame a
  { r.2 with vp := { r.2.vp with out := r.2.vp.out ++ [r.1] } }

lemma capRead_pos_of_lt (c : Capture) (h : c.opened = true)
    (h0 : 0 ≤ c.pos) (hlt : c.pos < (c.frames.length : Int)) :
    capRead c = ({ c with pos := c.pos + 1 }, c.frames.get? c.pos.toNat) := by
  unfold capRead
  rw [if_pos ⟨h, h0, hlt⟩]

lemma stepBackOnce_eq (c : Capture) (p : Nat) (h : c.opened = true)
    (hpos : c.pos = (p : Int) + 1) (h1 : 1 ≤ p)
    (hlen : (p : Int) < (c.frames.length : Int)) :
    stepBackOnce c =
      ({ c with pos := (p : Int) }, c.frames.get? (p - 1)) := by
  have h1' : (1 : Int) ≤ (p : Int) := by exact_mod_cast h1
  have hset : set_frame_back c 1 = { c with pos := (p : Int) - 1 } := by
    show capSet c (capGet c - 1 - ((1 : Nat) : Int)) = _
    unfold capSet capGet
    rw [hpos]
    congr 1
    push_cast
    split_ifs <;> omega
  unfold stepBackOnce
  rw [hset]
  have hrd := capRead_pos_of_lt { c with pos := (p : Int) - 1 } h
    (show (0 : Int) ≤ (p : Int) - 1 by omega)
    (show (p : Int) - 1 < (c.frames.length : Int) by omega)
  rw [hrd]
  have hp1 : ((p : Int) - 1).toNat = p - 1 := by omega
  have hpp : (p : Int) - 1 + 1 = (p : Int) := by ring
  rw [hp1, hpp]

lemma stepBackIter_spec (k : Nat) :
    ∀ (c : Capture) (p : Nat), c.opened = true → c.pos = (p : Int) + 1 →
    k ≤ p → (p : Int) < (c.frames.length : Int) →
    stepBackIter k c =
      ({ c with pos := (p : Int) + 1 - k },
       (List.range k).map (fun i => c.frames.get? (p - 1 - i))) := by
  induction k with
  | zero =>
    intro c p _ hpos _ _
    simp [stepBackIter, ← hpos]
  | succ k ih =>
    intro c p hop hpos hk hlen
    have h1 : 1 ≤ p := by omega
    have hone := stepBackOnce_eq c p hop hpos h1 hlen
    have hrec := ih { c with pos := (p : Int) } (p - 1) hop
      (show (p : Int) = ((p - 1 : Nat) : Int) + 1 by omega) (by omega)
      (show ((p - 1 : Nat) : Int) < (c.frames.length : Int) by omega)
    show (let r := stepBackOnce c
          let rest := stepBackIter k r.1
          (rest.1, r.2 :: rest.2)) = _
    rw [hone]
    show ((stepBackIter k { c with pos := (p : Int) }).1,
          c.frames.get? (p - 1) :: (stepBackIter k { c with pos := (p : Int) }).2) = _
    rw [hrec]
    refine Prod.ext ?_ ?_
    · show ({ c with pos := ((p - 1 : Nat) : Int) + 1 - k } : Capture) =
        { c with pos := (p : Int) + 1 - ((k + 1 : Nat) : Int) }
      have : ((p - 1 : Nat) : Int) + 1 - k = (p : Int) + 1 - ((k + 1 : Nat) : Int) := by
        push_cast
        omega
      rw [this]
    · show c.frames.get? (p - 1) ::
        (List.range k).map (fun i => c.frames.get? (p - 1 - 1 - i)) =
        (List.range (k + 1)).map (fun i => c.frames.get? (p - 1 - i))
      rw [List.range_succ_eq_map, List.map_cons, List.map_map]
      refine congrArg₂ _ (by rw [Nat.sub_zero]) ?_
      refine List.map_congr_left ?_
      intro i _
      simp only [Function.comp]
      congr 1
      omega

lemma playIter_spec (m : Nat) :
    ∀ (c : Capture) (q : Nat), c.opened = true → c.pos = (q : Int) →
    q + m ≤ c.frames.length →
    playIter m c =
      ({ c with pos := (q : Int) + m },
       (List.range m).map (fun j => c.frames.get? (q + j))) := by
  induction m with
  | zero =>
    intro c q _ hpos _
    simp [playIter, ← hpos]
  | succ m ih =>
    intro c q hop hpos hle
    have hlt : (q : Int) < (c.frames.length : Int) := by
      exact_mod_cast (show q < c.frames.length by omega)
    have hrd := capRead_pos_of_lt c hop (by omega) (by rw [hpos]; exact hlt)
    have hrec := ih { c with pos := c.pos + 1 } (q + 1) hop
      (show c.pos + 1 = ((q + 1 : Nat) : Int) by rw [hpos]; push_cast; ring)
      (show q + 1 + m ≤ c.frames.length by omega)
    show (let r := capRead c
          let rest := playIter m r.1
          (rest.1, r.2 :: rest.2)) = _
    rw [hrd]
    show ((playIter m { c with pos := c.pos + 1 }).1,
          c.frames.get? c.pos.toNat :: (playIter m { c with pos := c.pos + 1 }).2) = _
    rw [hrec]
    refine Prod.ext ?_ ?_
    · show ({ c with pos := ((q + 1 : Nat) : Int) + m } : Capture) =
        { c with pos := (q : Int) + ((m + 1 : Nat) : Int) }
      have : ((q + 1 : Nat) : Int) + m = (q : Int) + ((m + 1 : Nat) : Int) := by
        push_cast
        ring
      rw [this]
    · show c.frames.get? c.pos.toNat ::
        (List.range m).map (fun j => c.frames.get? (q + 1 + j)) =
        (List.range (m + 1)).map (fun j => c.frames.get? (q + j))
      have hq : c.pos.toNat = q := by rw [hpos]; omega
      rw [hq, List.range_succ_eq_map, List.map_cons, List.map_map]
      refine congrArg₂ _ (by rw [Nat.add_zero]) ?_
      refine List.map_congr_left ?_
      intro j _
      simp only [Function.comp]
      congr 1
      omega

/-- C1: Stepping back `k` times from displayed position `p` (each
invocation: `set_frame_back` by one, then a `read` that re-displays)
shows frames `p-1, p-2, …, p-k`, leaves the read position at `p+1-k`
(each invocation nets a decrease of exactly one, re-showing the frame
before the currently displayed one), and resuming play then displays
frames `p-k+1, p-k+2, …`: the frame sequence `p-k, p-k+1, …` is
reproduced. -/
theorem stepBack_then_play_replays (c : Capture) (p k m : Nat)
    (hop : c.opened = true) (hpos : c.pos = (p : Int) + 1) (hk : k ≤ p)
    (hp : p < c.frames.length) (hm : p - k + m < c.frames.length) :
    (stepBackIter k c).2 = (List.range k).map (fun i => c.frames.get? (p - 1 - i)) ∧
    (stepBackIter k c).1.pos = (p : Int) + 1 - k ∧
    (playIter m (stepBackIter k c).1).2 =
      (List.range m).map (fun j => c.frames.get? (p - k + 1 + j)) := by
  have hlen : (p : Int) < (c.frames.length : Int) := by exact_mod_cast hp
  have hsb := stepBackIter_spec k c p hop hpos hk hlen
  refine ⟨by rw [hsb], by rw [hsb], ?_⟩
  rw [hsb]
  have hpl := playIter_spec m { c with pos := (p : Int) + 1 - k } (p - k + 1) hop
    (show (p : Int) + 1 - k = ((p - k + 1 : Nat) : Int) by push_cast; omega)
    (show p - k + 1 + m ≤ c.frames.length by omega)
  rw [hpl]

/-- Witness for `stepBack_then_play_replays`: a 5-frame stream, displayed
position 3, two step-backs then two play ticks re-display frames 2, 1 and
then 2, 3. -/
theorem stepBack_then_play_replays_witness :
    (stepBackIter 2 ⟨true, [[[[0]]], [[[1]]], [[[2]]], [[[3]]], [[[4]]]], 4⟩).2 =
      [some [[[2]]], some [[[1]]]] ∧
    (stepBackIter 2 ⟨true, [[[[0]]], [[[1]]], [[[2]]], [[[3]]], [[[4]]]], 4⟩).1.pos = 2 ∧
    (playIter 2 (stepBackIter 2 ⟨true, [[[[0]]], [[[1]]], [[[2]]], [[[3]]], [[[4]]]], 4⟩).1).2 =
      [some [[[2]]], some [[[3]]]] := by
  have h := stepBack_then_play_replays
    ⟨true, [[[[0]]], [[[1]]], [[[2]]], [[[3]]], [[[4]]]], 4⟩ 3 2 2
    rfl (by decide) (by decide) (by decide) (by decide)
  obtain ⟨h1, h2, h3⟩ := h
  refine ⟨?_, ?_, ?_⟩
  · rw [h1]; decide
  · rw [h2]; decide
  · rw [h3]; decide

/-- C2: the position invariant `0 ≤ pos ≤ stream length` is preserved by
every capture operation (`capSet`, `capRead`, `set_frame_back`); in
particular a step-back issued at or near frame 0 (read position at most
1) clamps the position to 0 and never leaves a negative position. -/
theorem position_invariant (c : Capture) (t : Int) (n : Nat)
    (h0 : 0 ≤ c.pos) (h1 : c.pos ≤ (c.frames.length : Int)) :
    (0 ≤ (capSet c t).pos ∧ (capSet c t).pos ≤ (c.frames.length : Int)) ∧
    (0 ≤ (capRead c).1.pos ∧ (capRead c).1.pos ≤ (c.frames.length : Int)) ∧
    (0 ≤ (set_frame_back c n).pos ∧
      (set_frame_back c n).pos ≤ (c.frames.length : Int)) ∧
    (1 ≤ n → c.pos ≤ 1 → (set_frame_back c n).pos = 0) := by
  have hset : ∀ s : Int, (capSet c s).pos =
      if s < 0 then 0
      else if (c.frames.length : Int) < s then (c.frames.length : Int)
      else s := by
    intro s
    rfl
  have hsfb : set_frame_back c n = capSet c (c.pos - 1 - (n : Int)) := rfl
  refine ⟨?_, ?_, ?_, ?_⟩
  · rw [hset]
    split_ifs <;> omega
  · unfold capRead
    split_ifs with h
    · have h2 : c.pos < (c.frames.length : Int) := h.2.2
      exact ⟨show (0 : Int) ≤ c.pos + 1 by omega,
        show c.pos + 1 ≤ (c.frames.length : Int) by omega⟩
    · exact ⟨h0, h1⟩
  · rw [hsfb, hset]
    split_ifs <;> omega
  · intro hn hle
    rw [hsfb, hset]
    have : c.pos - 1 - (n : Int) < 0 := by omega
    rw [if_pos this]

/-- Witness for `position_invariant`: a one-frame stream at read position
1 (frame 0 just displayed); a step-back by one clamps to position 0. -/
theorem position_invariant_witness :
    (0 : Int) ≤ (⟨true, [[[[7]]]], 1⟩ : Capture).pos ∧
    (⟨true, [[[[7]]]], 1⟩ : Capture).pos ≤ 1 ∧
    (set_frame_back ⟨true, [[[[7]]]], 1⟩ 1).pos = 0 := by
  refine ⟨by decide, by decide, ?_⟩
  exact (position_invariant ⟨true, [[[[7]]]], 1⟩ (-5) 1 (by decide) (by decide)).2.2.2
    (by decide) (by decide)

lemma list_map_id_of {α : Type} (g : α → α) (l : List α)
    (h : ∀ x ∈ l, g x = x) : l.map g = l := by
  induction l with
  | nil => rfl
  | cons x xs ih =>
    rw [List.map_cons, h x (List.mem_cons_self x xs),
      ih (fun y hy => h y (List.mem_cons_of_mem x hy))]

lemma grayVal_const (v : Nat) : grayVal [v, v, v] = v := by
  unfold grayVal
  show (4899 * v + 9617 * v + 1868 * v + 8192) / 16384 = v
  omega

/-- C8: the grayscale transform is idempotent in visual content: on a
frame that is already monochrome (all three channels equal in every
pixel), `monochrome_fn` leaves the pixel values unchanged. -/
theorem monochrome_fn_idempotent (f : Frame)
    (h : ∀ row ∈ f, ∀ px ∈ row, px = [px.getD 0 0, px.getD 0 0, px.getD 0 0]) :
    monochrome_fn f = f := by
  unfold monochrome_fn
  refine list_map_id_of _ f ?_
  intro row hrow
  refine list_map_id_of _ row ?_
  intro px hpx
  have hpx' := h row hrow px hpx
  rw [hpx', grayVal_const]

/-- Witness for `monochrome_fn_idempotent`: a concrete already-monochrome
2-pixel frame is left unchanged. -/
theorem monochrome_fn_idempotent_witness :
    monochrome_fn [[[3, 3, 3], [200, 200, 200]]] = [[[3, 3, 3], [200, 200, 200]]] :=
  monochrome_fn_idempotent [[[3, 3, 3], [200, 200, 200]]] (by decide)

/-- Counterexample to C3: in the `run.py` variant, the grayscale branch
of `show_frame` returns a single-channel frame: on the 1×1 BGR frame
`[[[1, 2, 3]]]` the output has channel count 1, not the input's 3. -/
theorem runpy_monochrome_drops_channels :
    fchannels ((runTransform true false [[[1, 2, 3]]] none).1) = 1 ∧
    fchannels [[[1, 2, 3]]] = 3 ∧
    fchannels ((runTransform true false [[[1, 2, 3]]] none).1) ≠
      fchannels [[[1, 2, 3]]] := by
  refine ⟨rfl, rfl, ?_⟩
  decide

/-- C3 (amended): the GUI variant's `monochrome_fn` re-expands the
grayscale result to the original three channels, preserving height,
width and channel count; the `run.py` variant's grayscale branch
preserves height and width but returns a single-channel frame. -/
theorem monochrome_shape (f : Frame) (h w : Nat) (hwf : FrameWF f h w 3) :
    FrameWF (monochrome_fn f) h w 3 ∧ FrameWF (runMonochrome f) h w 1 := by
  obtain ⟨hlen, hrows⟩ := hwf
  constructor
  · refine ⟨by simpa [monochrome_fn] using hlen, ?_⟩
    intro row hrow
    simp only [monochrome_fn, List.mem_map] at hrow
    obtain ⟨row0, hr0, rfl⟩ := hrow
    refine ⟨by simpa using (hrows row0 hr0).1, ?_⟩
    intro px hpx
    simp only [List.mem_map] at hpx
    obtain ⟨px0, _, rfl⟩ := hpx
    rfl
  · refine ⟨by simpa [runMonochrome] using hlen, ?_⟩
    intro row hrow
    simp only [runMonochrome, List.mem_map] at hrow
    obtain ⟨row0, hr0, rfl⟩ := hrow
    refine ⟨by simpa using (hrows row0 hr0).1, ?_⟩
    intro px hpx
    simp only [List.mem_map] at hpx
    obtain ⟨px0, _, rfl⟩ := hpx
    rfl

/-- Witness for `monochrome_shape`: shapes on a concrete 1×2 BGR frame. -/
theorem monochrome_shape_witness :
    FrameWF (monochrome_fn [[[1, 2, 3], [9, 9, 9]]]) 1 2 3 ∧
    FrameWF (runMonochrome [[[1, 2, 3], [9, 9, 9]]]) 1 2 1 :=
  monochrome_shape [[[1, 2, 3], [9, 9, 9]]] 1 2 (by decide)

/-- Counterexample to C7: the segmentation transform is not a pure
function of its input frame.  Applying `SegmentationFunctor` twice to
the same constant frame gives different outputs: the first call (empty
background model) keeps the frame, the second (model learned from that
very frame) blanks it. -/
theorem segmentation_not_pure :
    (applyProc Proc.segment [[[5, 5, 5]]]
        ((applyProc Proc.segment [[[5, 5, 5]]] none).2)).1 ≠
      (applyProc Proc.segment [[[5, 5, 5]]] none).1 := by
  decide

/-- C7 (amended): the identity and grayscale transforms are pure — they
neither read nor change the subtractor state — while the segmentation
transform is stateful: its output on a fixed frame depends on the
background model accumulated from previously processed frames. -/
theorem mono_pure_segment_stateful (f : Frame) (s s' : SubState) :
    (applyProc Proc.mono f s).1 = (applyProc Proc.mono f s').1 ∧
    (applyProc Proc.mono f s).2 = s ∧
    (applyProc Proc.segment [[[5, 5, 5]]]
        ((applyProc Proc.segment [[[5, 5, 5]]] none).2)).1 ≠
      (applyProc Proc.segment [[[5, 5, 5]]] none).1 := by
  refine ⟨rfl, rfl, ?_⟩
  decide

lemma playTick_of_fetch_some (mono seg : Bool) (s : RunState)
    (c' : Capture) (sub' : SubState) (f : Frame)
    (h : playFetch mono seg s.cap s.sub = some (c', sub', f)) :
    playTick mono seg s = Sum.inl { s with
      cap := c'
      sub := sub'
      displayed := s.displayed ++ [f]
      sink := s.sink ++ [f] } := by
  unfold playFetch at h
  unfold playTick
  by_cases ho : s.cap.opened
  · rw [if_pos ho] at h ⊢
    set cr := capRead s.cap with hcr
    clear_value cr
    obtain ⟨c'', of⟩ := cr
    cases of with
    | none => exact absurd h (by simp)
    | some raw =>
      simp only [Option.some.injEq, Prod.mk.injEq] at h
      obtain ⟨hc, hs, hf⟩ := h
      subst hc
      subst hs
      subst hf
      rfl
  · rw [if_neg ho] at h
    exact absurd h (by simp)

lemma playTick_of_fetch_none (mono seg : Bool) (s : RunState)
    (h : playFetch mono seg s.cap s.sub = none) :
    ∃ r : RunState × Outcome, playTick mono seg s = Sum.inr r ∧ r.1.sink = s.sink := by
  unfold playFetch at h
  unfold playTick
  by_cases ho : s.cap.opened
  · rw [if_pos ho] at h ⊢
    set cr := capRead s.cap with hcr
    clear_value cr
    obtain ⟨c'', of⟩ := cr
    cases of with
    | none => exact ⟨_, rfl, rfl⟩
    | some raw => exact absurd h (by simp)
  · rw [if_neg ho]
    exact ⟨_, rfl, rfl⟩

lemma pauseStep_of_fetch_some (mono seg : Bool) (s : RunState)
    (c' : Capture) (sub' : SubState) (f : Frame)
    (h : pauseFetch mono seg s.cap s.sub = some (c', sub', f)) :
    pauseStep mono seg s =
      Sum.inl { s with cap := c', sub := sub', displayed := s.displayed ++ [f] } := by
  unfold pauseFetch at h
  unfold pauseStep
  set cr := capRead (set_frame_back s.cap 1) with hcr
  clear_value cr
  obtain ⟨c'', of⟩ := cr
  cases of with
  | none => exact absurd h (by simp)
  | some raw =>
    simp only [Option.some.injEq, Prod.mk.injEq] at h
    obtain ⟨hc, hs, hf⟩ := h
    subst hc
    subst hs
    subst hf
    rfl

lemma pauseStep_of_fetch_none (mono seg : Bool) (s : RunState)
    (h : pauseFetch mono seg s.cap s.sub = none) :
    ∃ r : RunState × Outcome, pauseStep mono seg s = Sum.inr r ∧ r.1.sink = s.sink := by
  unfold pauseFetch at h
  unfold pauseStep
  set cr := capRead (set_frame_back s.cap 1) with hcr
  clear_value cr
  obtain ⟨c'', of⟩ := cr
  cases of with
  | none => exact ⟨_, rfl, rfl⟩
  | some raw => exact absurd h (by simp)

lemma runMain_sink_eq (mono seg : Bool) (ks : List Key) :
    ∀ (mode : Mode) (s : RunState),
    ((runMain mono seg mode ks s).1).sink =
      s.sink ++ playedFrames mono seg mode ks s.cap s.sub := by
  induction ks with
  | nil =>
    intro mode s
    cases mode
    · rcases hpf : playFetch mono seg s.cap s.sub with _ | ⟨c', sub', f⟩
      · obtain ⟨r, hpt, hsink⟩ := playTick_of_fetch_none mono seg s hpf
        simp [runMain, playedFrames, hpt, hpf, hsink]
      · have hpt := playTick_of_fetch_some mono seg s c' sub' f hpf
        simp [runMain, playedFrames, hpt, hpf]
    · simp [runMain, playedFrames]
  | cons k ks ih =>
    intro mode s
    cases mode
    · rcases hpf : playFetch mono seg s.cap s.sub with _ | ⟨c', sub', f⟩
      · obtain ⟨r, hpt, hsink⟩ := playTick_of_fetch_none mono seg s hpf
        cases k <;> simp [runMain, playedFrames, hpt, hpf, hsink]
      · have hpt := playTick_of_fetch_some mono seg s c' sub' f hpf
        cases k <;> simp [runMain, playedFrames, hpt, hpf, ih]
    · cases k
      · simp [runMain, playedFrames]
      · simp [runMain, playedFrames, ih]
      · rcases hpf : pauseFetch mono seg s.cap s.sub with _ | ⟨c', sub', f⟩
        · obtain ⟨r, hps, hsink⟩ := pauseStep_of_fetch_none mono seg s hpf
          simp [runMain, playedFrames, hps, hpf, hsink]
        · have hps := pauseStep_of_fetch_some mono seg s c' sub' f hpf
          simp [runMain, playedFrames, hps, hpf, ih]
      · simp [runMain, playedFrames, ih]

lemma runMain_paused_sink_const (mono seg : Bool) (ks : List Key) :
    ∀ s : RunState, Key.p ∉ ks →
    ((runMain mono seg Mode.paused ks s).1).sink = s.sink := by
  induction ks with
  | nil =>
    intro s _
    simp [runMain]
  | cons k ks ih =>
    intro s hp
    have hk : k ≠ Key.p := fun h => hp (h ▸ List.mem_cons_self k ks)
    have hks : Key.p ∉ ks := fun h => hp (List.mem_cons_of_mem k h)
    cases k
    · simp [runMain]
    · exact absurd rfl hk
    · rcases hpf : pauseFetch mono seg s.cap s.sub with _ | ⟨c', sub', f⟩
      · obtain ⟨r, hps, hsink⟩ := pauseStep_of_fetch_none mono seg s hpf
        simp [runMain, hps, hsink]
      · have hps := pauseStep_of_fetch_some mono seg s c' sub' f hpf
        simp [runMain, hps, ih _ hks]
    · simp [runMain, ih _ hks]

lemma playTick_unopened (mono seg : Bool) (s : RunState)
    (h : s.cap.opened = false) :
    playTick mono seg s = Sum.inr ({ s with released := true }, Outcome.loopEnded) := by
  unfold playTick
  rw [if_neg (by rw [h]; exact Bool.false_ne_true)]

lemma playTick_eos (mono seg : Bool) (s : RunState)
    (hop : s.cap.opened = true) (hcr : capRead s.cap = (s.cap, none)) :
    playTick mono seg s = Sum.inr (s, Outcome.exited 0) := by
  unfold playTick
  rw [if_pos hop, hcr]

lemma playTick_state (mono seg : Bool) (s : RunState) (hop : s.cap.opened = true) :
    (∀ s', playTick mono seg s = Sum.inl s' → s'.released = s.released) ∧
    (∀ r, playTick mono seg s = Sum.inr r →
      r.2 = Outcome.exited 0 ∧ r.1.released = s.released) := by
  unfold playTick
  rw [if_pos hop]
  rcases hcr : capRead s.cap with ⟨c'', of⟩
  cases of with
  | none =>
    refine ⟨fun s' h => absurd h (by simp), fun r h => ?_⟩
    simp only [Sum.inr.injEq] at h
    rw [← h]
    exact ⟨rfl, rfl⟩
  | some raw =>
    refine ⟨fun s' h => ?_, fun r h => absurd h (by simp)⟩
    simp only [Sum.inl.injEq] at h
    rw [← h]

/-- Counterexample to C4: in the `run.py` variant an unopenable source
raises no error and the process does not terminate non-zero: the
`while cap.isOpened()` guard fails at once, the loop body is skipped and
the program falls through the release lines to a normal (code 0)
termination. -/
theorem runpy_unopened_source_exits_normally :
    runMain false false Mode.playing [Key.q]
      ⟨⟨false, [[[[1]]]], 0⟩, none, [], [], false⟩ =
      (⟨⟨false, [[[[1]]]], 0⟩, none, [], [], true⟩, Outcome.loopEnded) := by
  decide

/-- C4 (amended): if the source path cannot be opened, the GUI variant
raises `ValueError` in `VideoProcessor.__init__`, before any loop; the
`run.py` variant raises nothing and exits normally — its `while` guard
fails immediately, so the loop body is never entered (nothing displayed,
nothing written) and the release lines run.  In both variants the
playback loop is never entered with an unopened source. -/
theorem unopened_source_amended (frames : List Frame) (procs : List Proc)
    (mono seg : Bool) (ks : List Key) (s : RunState)
    (h : s.cap.opened = false) :
    VideoProcessor.init false frames procs = Except.error "Unable to open video source" ∧
    runMain mono seg Mode.playing ks s = ({ s with released := true }, Outcome.loopEnded) := by
  refine ⟨rfl, ?_⟩
  have hpt := playTick_unopened mono seg s h
  cases ks with
  | nil => simp [runMain, hpt]
  | cons k ks => cases k <;> simp [runMain, hpt]

/-- Witness for `unopened_source_amended` at a concrete unopened state. -/
theorem unopened_source_amended_witness :
    VideoProcessor.init false [[[[1]]]] [] = Except.error "Unable to open video source" ∧
    runMain false false Mode.playing [Key.other]
      ⟨⟨false, [[[[1]]]], 0⟩, none, [], [], false⟩ =
      (⟨⟨false, [[[[1]]]], 0⟩, none, [], [], true⟩, Outcome.loopEnded) :=
  unopened_source_amended [[[[1]]]] [] false false [Key.other]
    ⟨⟨false, [[[[1]]]], 0⟩, none, [], [], false⟩ rfl

/-- Counterexample to C5: on a quit input the `run.py` loop does exit via
`sys.exit(0)`, but the decoder/encoder/window release lines after the
loop are skipped: in this concrete run the outcome is `exited 0` while
`released` is still `false`. -/
theorem quit_skips_release :
    (runMain false false Mode.playing [Key.q]
      ⟨⟨true, [[[[1]]], [[[2]]]], 0⟩, none, [], [], false⟩).2 = Outcome.exited 0 ∧
    (runMain false false Mode.playing [Key.q]
      ⟨⟨true, [[[[1]]], [[[2]]]], 0⟩, none, [], [], false⟩).1.released = false := by
  decide

/-- C5 (amended): a quit input or end-of-stream halts the `run.py` loop
immediately: a `q` while paused exits at once with the state untouched; a
`q` while playing exits right after the current tick, and the rest of
the input script is irrelevant; a failing read while playing exits with
code 0 with the state untouched.  On these `sys.exit` paths the release
lines after the loop do not run (`released` stays `false`); they run
only on the fall-through path where the capture is unopened. -/
theorem quit_and_eos_halt_immediately (mono seg : Bool) (ks ks' : List Key)
    (s : RunState) (hop : s.cap.opened = true) (hrel : s.released = false) :
    runMain mono seg Mode.paused (Key.q :: ks) s = (s, Outcome.exited 0) ∧
    (runMain mono seg Mode.playing (Key.q :: ks) s).2 = Outcome.exited 0 ∧
    runMain mono seg Mode.playing (Key.q :: ks) s =
      runMain mono seg Mode.playing (Key.q :: ks') s ∧
    (runMain mono seg Mode.playing (Key.q :: ks) s).1.released = false ∧
    (capRead s.cap = (s.cap, none) →
      runMain mono seg Mode.playing ks s = (s, Outcome.exited 0)) := by
  have hstate := playTick_state mono seg s hop
  refine ⟨by simp [runMain], ?_, ?_, ?_, ?_⟩
  · rcases hpt : playTick mono seg s with s' | r
    · simp [runMain, hpt]
    · simp [runMain, hpt, (hstate.2 r hpt).1]
  · rcases hpt : playTick mono seg s with s' | r <;> simp [runMain, hpt]
  · rcases hpt : playTick mono seg s with s' | r
    · simp [runMain, hpt]
      rw [hstate.1 s' hpt, hrel]
    · simp [runMain, hpt]
      rw [(hstate.2 r hpt).2, hrel]
  · intro hcr
    have hpt := playTick_eos mono seg s hop hcr
    cases ks with
    | nil => simp [runMain, hpt]
    | cons k ks => cases k <;> simp [runMain, hpt]

/-- Witness for `quit_and_eos_halt_immediately` at a concrete state. -/
theorem quit_and_eos_halt_immediately_witness :
    runMain false false Mode.paused [Key.q, Key.p]
      ⟨⟨true, [[[[1]]], [[[2]]]], 1⟩, none, [[[[1]]]], [[[[1]]]], false⟩ =
      (⟨⟨true, [[[[1]]], [[[2]]]], 1⟩, none, [[[[1]]]], [[[[1]]]], false⟩,
       Outcome.exited 0) ∧
    (runMain false false Mode.playing [Key.q, Key.p]
      ⟨⟨true, [[[[1]]], [[[2]]]], 1⟩, none, [[[[1]]]], [[[[1]]]], false⟩).1.released =
      false := by
  have h := quit_and_eos_halt_immediately false false [Key.p] []
    ⟨⟨true, [[[[1]]], [[[2]]]], 1⟩, none, [[[[1]]]], [[[[1]]]], false⟩ rfl rfl
  exact ⟨h.1, h.2.2.2.1⟩

lemma get_frame_out (v : VideoProcessor) : (VideoProcessor.get_frame v).2.out = v.out := by
  unfold VideoProcessor.get_frame
  by_cases ho : v.vid.opened
  · rw [if_pos ho]
    rcases hcr : capRead v.vid with ⟨c', of⟩
    cases of <;> rfl
  · rw [if_neg ho]

lemma show_frame_out (a : App) : (App.show_frame a).2.vp.out = a.vp.out := by
  unfold App.show_frame
  rcases hgf : a.vp.get_frame with ⟨of, v'⟩
  have hout : v'.out = a.vp.out := by
    have h := get_frame_out a.vp
    rw [hgf] at h
    exact h
  cases of
  · exact hout
  · exact hout

/-- C6: while paused, any number of step-back inputs (and a final quit)
never append a frame to the output sink: in `run.py` the paused loop's
`show_frame` re-displays without `out.write`, so the sink after any
`p`-free paused input script equals the sink at pause time; in `gui.py`
`App.step_back` leaves the writer untouched. -/
theorem paused_stepback_never_writes (mono seg : Bool) (ks : List Key)
    (s : RunState) (h : Key.p ∉ ks) :
    ((runMain mono seg Mode.paused ks s).1).sink = s.sink ∧
    ∀ a : App, (App.step_back a).vp.out = a.vp.out := by
  constructor
  · exact runMain_paused_sink_const mono seg ks s h
  · intro a
    unfold App.step_back
    by_cases hp : a.paused
    · rw [if_pos hp]
      exact show_frame_out { a with vp := { a.vp with vid := set_frame_back a.vp.vid 1 } }
    · rw [if_neg hp]

/-- Witness for `paused_stepback_never_writes`: pause point with one
frame already written, two step-backs then quit; the sink still holds
exactly that one frame. -/
theorem paused_stepback_never_writes_witness :
    ((runMain false false Mode.paused [Key.b, Key.b, Key.q]
      ⟨⟨true, [[[[1]]], [[[2]]], [[[3]]]], 2⟩, none, [[[[1]]]], [[[[1]]]], false⟩).1).sink =
      [[[[1]]]] :=
  (paused_stepback_never_writes false false [Key.b, Key.b, Key.q]
    ⟨⟨true, [[[[1]]], [[[2]]], [[[3]]]], 2⟩, none, [[[[1]]]], [[[[1]]]], false⟩
    (by decide)).1

/-- C9: `VideoProcessor.get_frame` is total at its interface: whenever
the capture is opened and a frame is available it returns `(True, f)`
with `f` the raw frame run through the whole processor chain; in every
other case — capture closed, or the underlying read failing — it returns
`(False, None)` rather than raising. -/
theorem get_frame_total (v : VideoProcessor) :
    ((v.vid.opened = true ∧ 0 ≤ v.vid.pos ∧ v.vid.pos < (v.vid.frames.length : Int)) →
      ∃ raw, v.vid.frames.get? v.vid.pos.toNat = some raw ∧
        v.get_frame.1 = some (applyChain v.processors raw v.sub).1) ∧
    (¬(v.vid.opened = true ∧ 0 ≤ v.vid.pos ∧ v.vid.pos < (v.vid.frames.length : Int)) →
      v.get_frame.1 = none) := by
  constructor
  · rintro ⟨ho, h0, hlt⟩
    have hn : v.vid.pos.toNat < v.vid.frames.length := by omega
    have hsome : v.vid.frames.get? v.vid.pos.toNat =
        some (v.vid.frames.get ⟨v.vid.pos.toNat, hn⟩) := List.get?_eq_get hn
    refine ⟨v.vid.frames.get ⟨v.vid.pos.toNat, hn⟩, hsome, ?_⟩
    unfold VideoProcessor.get_frame
    rw [if_pos ho, capRead_pos_of_lt v.vid ho h0 hlt, hsome]
  · intro hn
    unfold VideoProcessor.get_frame
    by_cases ho : v.vid.opened
    · rw [if_pos ho]
      have hcr : capRead v.vid = (v.vid, none) := by
        unfold capRead
        rw [if_neg hn]
      rw [hcr]
    · rw [if_neg ho]

/-- Witness for `get_frame_total`: on a closed capture, `get_frame`
returns `(False, None)`. -/
theorem get_frame_total_witness :
    (VideoProcessor.get_frame ⟨⟨false, [[[[1]]]], 0⟩, [Proc.mono], none, []⟩).1 = none :=
  (get_frame_total ⟨⟨false, [[[[1]]]], 0⟩, [Proc.mono], none, []⟩).2 (by decide)

/-- C10: in both variants the output writer is always opened and every
frame fetched while playing is written to it: with no `--target-file-path`
the writer is opened at `<stem>_processed.mp4` beside the input (whatever
the transform flags), the `run.py` sink always ends up holding exactly
the prior writes plus every frame fetched in `Playing` mode, and each
`gui.py` `App.update` tick appends exactly what `show_frame` fetched. -/
theorem sink_receives_every_played_frame (mono seg : Bool) (mode : Mode)
    (ks : List Key) (s : RunState) (par stem : String) :
    targetPath none par stem = par ++ "/" ++ stem ++ "_processed.mp4" ∧
    ((runMain mono seg mode ks s).1).sink =
      s.sink ++ playedFrames mono seg mode ks s.cap s.sub ∧
    ∀ a : App, (App.update a).vp.out = a.vp.out ++ [(App.show_frame a).1] := by
  refine ⟨rfl, runMain_sink_eq mono seg ks mode s, ?_⟩
  intro a
  show (App.show_frame a).2.vp.out ++ [(App.show_frame a).1] =
    a.vp.out ++ [(App.show_frame a).1]
  rw [show_frame_out]
